import Mathlib

/-!
Shallow embedding of the lexer of togami2864/rtsc
(src/crates/rtsc_parser/src/lib.rs and src/crates/rtsc_parser/src/diagnostics.rs).

Modelling conventions:
* Source text is a `List Char` (the code measures all positions in character
  units, see `Lexer::offset`).  The lexer state is passed explicitly: the
  remaining character iterator `chars` is the list `rest`, `self.last_pos`
  is `lp : Nat`, `self.errors` is `errs : List Diag`.  The current offset
  `self.offset()` is `srcLen - rest.length`.
* `self.cur()` is `rest.head?` and `self.peek()` is `rest[1]?` (the source
  uses `self.chars.clone().nth(1)`, the SECOND unconsumed character).
* Rust `f64` literal values are modelled as exact rationals (`ℚ`).  IEEE-754
  rounding is not modelled; every concrete value appearing in a theorem below
  is a small integer, where the rational and the `f64` agree exactly.
* A Rust `panic!` / `expect` failure (process abort) is modelled by the
  `none` branch of the `Option`-returning scanners and by `LexOut.abort`
  at the top level.
-/

namespace Rtsc

/-- Half-open character span, from struct `Span` of the source. -/
structure Span where
  start : Nat
  «end» : Nat
deriving DecidableEq, Repr

/-- Enum `AssignOp` of the source. -/
inductive AssignOp where
  | assign | addAssign | subAssign | mulAssign | divAssign | modAssign
  | bitOrAssign | bitXorAssign | bitAndAssign
  | zeroFillRightShiftAssign | rightShiftAssign | leftShiftAssign
deriving DecidableEq, Repr

/-- Enum `BinaryOp` of the source. -/
inductive BinaryOp where
  | lt | le | gt | ge | lshift | rshift | zeroFillRightShift
  | eq | eqEq | ne | neNe
  | add | sub | mul | div | mod
  | bitOr | bitXor | bitAnd | logicalOr | logicalAnd
deriving DecidableEq, Repr

/-- Enum `Keyword` of the source (34 reserved words). -/
inductive Keyword where
  | Break | Case | Catch | Class | Const | Continue | Debugger | Default
  | Delete | Do | Else | Export | Extends | Finally | For | Function
  | If | Import | In | Instanceof | New | Return | Let | Super | Switch
  | This | Throw | Try | Typeof | Var | Void | While | With | Yield
deriving DecidableEq, Repr

/-- Enum `WordKind` of the source.  Rust `String` payloads are modelled as
character lists. -/
inductive WordKind where
  | keyword (k : Keyword)
  | identifier (ident : List Char)
  | True
  | False
  | Null
deriving DecidableEq, Repr

/-- Enum `TokenKind` of the source.  `number` carries the decoded value as an
exact rational (see the file header); `string` carries decoded value and raw
source text as character lists. -/
inductive TokenKind where
  | eof
  | arrow
  | number (value : ℚ)
  | string (value : List Char) (raw : List Char)
  | word (w : WordKind)
  | singleLineComment
  | multiLineComment
  | backquote
  | lbrace | lparen | rbrace | rparen | lbracket | rbracket
  | comma | dot | dotDotDot | bang | semicolon | colon | question | tilde
  | plusPlus | minusMinus
  | assignOp (op : AssignOp)
  | binaryOp (op : BinaryOp)
deriving DecidableEq, Repr

/-- Struct `Token` of the source. -/
structure Token where
  kind : TokenKind
  span : Span
deriving DecidableEq, Repr

/-- The diagnostic records of src/crates/rtsc_parser/src/diagnostics.rs:
each carries the offending character (when the Rust struct has one) and a
span. -/
inductive Diag where
  | unexpectedToken (c : Char) (span : Span)
  | invalidOrUnexpectedToken (c : Char) (span : Span)
  | unexpectedNumber (c : Char) (span : Span)
  | legacyDecimalEscape (span : Span)
  | legacyOctalLiteral (span : Span)
deriving DecidableEq, Repr

/-- Rust `char::is_whitespace` (the Unicode White_Space property), used by
`Lexer::skip_whitespace` and the numeric-literal scanners. -/
def is_whitespace (c : Char) : Bool :=
  c = ' ' || ('\u0009' ≤ c && c ≤ '\u000d') || c = '\u0085' || c = '\u00a0' ||
  c = '\u1680' || ('\u2000' ≤ c && c ≤ '\u200a') || c = '\u2028' ||
  c = '\u2029' || c = '\u202f' || c = '\u205f' || c = '\u3000'

/-- Rust `char::is_ascii_digit`. -/
def is_ascii_digit (c : Char) : Bool :=
  '0' ≤ c && c ≤ '9'

/-- Function `is_ident_start` of the source. -/
def is_ident_start (c : Char) : Bool :=
  ('a' ≤ c && c ≤ 'z') || ('A' ≤ c && c ≤ 'Z') || c = '$' || c = '_'

/-- Function `is_ident_part` of the source. -/
def is_ident_part (c : Char) : Bool :=
  ('a' ≤ c && c ≤ 'z') || ('A' ≤ c && c ≤ 'Z') || c = '$' || c = '_' ||
  is_ascii_digit c || c = '\u200c'

/-- Function `is_line_terminator` of the source. -/
def is_line_terminator (c : Char) : Bool :=
  c = '\n' || c = '\r' || c = '\u2028' || c = '\u2029'

/-- `Lexer::skip_whitespace`. -/
def skip_whitespace : List Char → List Char
  | [] => []
  | c :: rs => if is_whitespace c then skip_whitespace rs else c :: rs

/-- Value of a digit character, as in Rust `char::to_digit` (used by
`isize::from_str_radix`); 99 is a sentinel larger than every radix in use,
standing for "not a digit in this radix". -/
def digit_value (c : Char) : Nat :=
  if is_ascii_digit c then c.toNat - '0'.toNat
  else if 'a' ≤ c && c ≤ 'z' then c.toNat - 'a'.toNat + 10
  else if 'A' ≤ c && c ≤ 'Z' then c.toNat - 'A'.toNat + 10
  else 99

/-- Rust `isize::from_str_radix` restricted to the digit strings this lexer
collects (no sign characters are ever collected).  `none` models `Err`
(empty string, digit invalid for the radix, or overflow past `isize::MAX`;
Rust detects overflow during accumulation, which for nonnegative inputs is
equivalent to the final bound check used here). -/
def from_str_radix (radix : Nat) (s : List Char) : Option Int :=
  if s.isEmpty then none
  else
    match s.foldl
        (fun acc c => acc.bind fun n =>
          if digit_value c < radix then some (n * radix + digit_value c)
          else none)
        (some 0) with
    | none => none
    | some n => if n ≤ 2 ^ 63 - 1 then some (n : Int) else none

/-- Numeric value of a decimal digit string. -/
def nat_of_digits (s : List Char) : Nat :=
  s.foldl (fun n c => n * 10 + (c.toNat - '0'.toNat)) 0

/-- Rust `f64::from_str` (`number.parse::<f64>()`), restricted to the
alphabet the lexer can accumulate (ASCII digits, one leading-position dot,
inner dots, `e`/`E`, and a sign directly after the exponent marker) and with
the value taken as an exact rational instead of a rounded `f64`.  `none`
models `Err` (which the source turns into a panic via `expect`). -/
def parse_f64 (s : List Char) : Option ℚ :=
  let (ip, r1) := s.span (fun c => is_ascii_digit c)
  let (fp, r2) :=
    match r1 with
    | '.' :: t =>
      let (f, r) := t.span (fun c => is_ascii_digit c)
      (f, r)
    | _ => ([], r1)
  let dotted : Bool := match r1 with | '.' :: _ => true | _ => false
  if ip.isEmpty && (fp.isEmpty || !dotted) then none
  else
    let num0 := nat_of_digits (ip ++ fp)
    let den0 := 10 ^ fp.length
    match r2 with
    | [] => some (mkRat (Int.ofNat num0) den0)
    | c :: t =>
      if c = 'e' ∨ c = 'E' then
        let (neg, t1) : Bool × List Char :=
          match t with
          | '+' :: t2 => (false, t2)
          | '-' :: t2 => (true, t2)
          | _ => (false, t)
        let (ed, t2) := t1.span (fun c => is_ascii_digit c)
        if ed.isEmpty || !t2.isEmpty then none
        else
          let e := nat_of_digits ed
          some (if neg then mkRat (Int.ofNat num0) (den0 * 10 ^ e)
                else mkRat (Int.ofNat (num0 * 10 ^ e)) den0)
      else none

/-- The escape decoding of `Lexer::read_string_literal`: the match on
`next_char` pushes a control character for `n`/`r`/`t` and the character
itself in every other arm (including the default arm). -/
def decode_escape (nc : Char) : Char :=
  match nc with
  | 'n' => '\n'
  | 'r' => '\r'
  | 't' => '\t'
  | '\\' => '\\'
  | '\'' => '\''
  | '"' => '"'
  | c => c

/-- The while-loop of `Lexer::read_string_literal`.  Arguments: remaining
characters, accumulated `string` (decoded value), accumulated `raw`, and
`last_pos`.  Returns `(string, raw, rest, last_pos)`.  Note the loop body
runs `self.last_pos = self.offset()` at the end of every iteration except
the `break` on the terminating quote, and that in the escape case `raw`
receives the backslash and then the escaped character unchanged. -/
def read_string_literal_loop (srcLen : Nat) (q : Char) :
    List Char → List Char → List Char → Nat →
    List Char × List Char × List Char × Nat
  | [], string, raw, lp => (string, raw, [], lp)
  | '\\' :: rs, string, raw, _lp =>
    match rs with
    | [] =>
      -- the backslash was consumed, `next_char` is `None`: nothing is
      -- pushed, `last_pos` is set to the offset, and the loop then ends
      (string, raw, [], srcLen)
    | nc :: rs2 =>
      read_string_literal_loop srcLen q rs2
        (string ++ [decode_escape nc]) (raw ++ ['\\', nc]) (srcLen - rs2.length)
  | c :: rs, string, raw, lp =>
    if c = q then (string, raw ++ [c], rs, lp)
    else
      read_string_literal_loop srcLen q rs
        (string ++ [c]) (raw ++ [c]) (srcLen - rs.length)

/-- `Lexer::read_string_literal`: `raw` starts with the opening quote. -/
def read_string_literal (srcLen : Nat) (q : Char) (rest : List Char)
    (lp : Nat) : List Char × List Char × List Char × Nat :=
  read_string_literal_loop srcLen q rest [] [q] lp

/-- The while-loop of `Lexer::read_identifier`.  Returns
`(ident, rest, last_pos, errors)`. -/
def read_identifier_loop (srcLen : Nat) :
    List Char → List Char → Nat → List Diag →
    List Char × List Char × Nat × List Diag
  | [], ident, lp, errs => (ident, [], lp, errs)
  | c :: rs, ident, lp, errs =>
    if is_ident_part c then
      read_identifier_loop srcLen rs (ident ++ [c]) (srcLen - rs.length) errs
    else if is_whitespace c then (ident, rs, lp, errs)
    else
      read_identifier_loop srcLen rs ident lp
        (errs ++ [.unexpectedToken c ⟨lp, srcLen - rs.length⟩])

/-- The reserved-word table at the end of `Lexer::read_identifier` (every
arm of the source wraps its result in `TokenKind::Word`, so the table is
modelled as producing the `WordKind`). -/
def match_keyword (ident : List Char) : WordKind :=
  match ident with
  | ['b','r','e','a','k'] => (.keyword .Break)
  | ['c','a','s','e'] => (.keyword .Case)
  | ['c','a','t','c','h'] => (.keyword .Catch)
  | ['c','l','a','s','s'] => (.keyword .Class)
  | ['c','o','n','t','i','n','u','e'] => (.keyword .Continue)
  | ['c','o','n','s','t'] => (.keyword .Const)
  | ['d','e','b','u','g','g','e','r'] => (.keyword .Debugger)
  | ['d','e','f','a','u','l','t'] => (.keyword .Default)
  | ['d','e','l','e','t','e'] => (.keyword .Delete)
  | ['d','o'] => (.keyword .Do)
  | ['e','l','s','e'] => (.keyword .Else)
  | ['e','x','p','o','r','t'] => (.keyword .Export)
  | ['e','x','t','e','n','d','s'] => (.keyword .Extends)
  | ['f','i','n','a','l','l','y'] => (.keyword .Finally)
  | ['f','o','r'] => (.keyword .For)
  | ['f','u','n','c','t','i','o','n'] => (.keyword .Function)
  | ['i','f'] => (.keyword .If)
  | ['i','m','p','o','r','t'] => (.keyword .Import)
  | ['i','n'] => (.keyword .In)
  | ['i','n','s','t','a','n','c','e','o','f'] => (.keyword .Instanceof)
  | ['n','e','w'] => (.keyword .New)
  | ['r','e','t','u','r','n'] => (.keyword .Return)
  | ['l','e','t'] => (.keyword .Let)
  | ['s','u','p','e','r'] => (.keyword .Super)
  | ['s','w','i','t','c','h'] => (.keyword .Switch)
  | ['t','h','i','s'] => (.keyword .This)
  | ['t','h','r','o','w'] => (.keyword .Throw)
  | ['t','r','y'] => (.keyword .Try)
  | ['t','y','p','e','o','f'] => (.keyword .Typeof)
  | ['v','a','r'] => (.keyword .Var)
  | ['v','o','i','d'] => (.keyword .Void)
  | ['w','h','i','l','e'] => (.keyword .While)
  | ['w','i','t','h'] => (.keyword .With)
  | ['y','i','e','l','d'] => (.keyword .Yield)
  | _ => .identifier ident

/-- `Lexer::read_identifier` (loop plus reserved-word table). -/
def read_identifier (srcLen : Nat) (head : Char) (rest : List Char)
    (lp : Nat) (errs : List Diag) :
    TokenKind × List Char × Nat × List Diag :=
  match read_identifier_loop srcLen rest [head] lp errs with
  | (ident, rest', lp', errs') => (.word (match_keyword ident), rest', lp', errs')

/-- The error bookkeeping of the dot arm of `Lexer::read_number`: after the
dot is pushed and `last_pos` set to the current offset, `self.peek()` (two
characters ahead, here `rs[1]?`) must be a digit or an exponent marker,
otherwise an `InvalidOrUnexpectedToken` with the zero-width span
`{start: last_pos, end: offset}` is recorded; when `peek` is `None` the
diagnostic carries the dot itself. -/
def read_number_dot_errs (lp1 : Nat) (rs : List Char) (errs : List Diag) :
    List Diag :=
  match rs with
  | _ :: c2 :: _ =>
    if !is_ascii_digit c2 && c2 ≠ 'e' && c2 ≠ 'E' then
      errs ++ [.invalidOrUnexpectedToken c2 ⟨lp1, lp1⟩]
    else errs
  | _ => errs ++ [.invalidOrUnexpectedToken '.' ⟨lp1, lp1⟩]

/-- The error bookkeeping after an explicit exponent sign in
`Lexer::read_number`: `self.peek()` (here `rs2[1]?`) is checked to be a
digit; a `None` peek records nothing. -/
def read_number_sign_errs (lp2 : Nat) (rs2 : List Char) (errs : List Diag) :
    List Diag :=
  match rs2 with
  | _ :: c3 :: _ =>
    if !is_ascii_digit c3 then
      errs ++ [.invalidOrUnexpectedToken c3 ⟨lp2, lp2⟩]
    else errs
  | _ => errs

/-- The while-loop of `Lexer::read_number`.  Arguments: remaining characters,
accumulated digit string `number`, `last_pos`, errors.  Returns
`(number, rest, last_pos, errors)`.  Digits are pushed (updating
`last_pos`), whitespace breaks, a dot is pushed with the peek check of
`read_number_dot_errs`, an exponent marker consumes one further character
(`self.chars.next()`): a sign is pushed with the peek check of
`read_number_sign_errs`, a digit is pushed, anything else (or end of input)
is dropped with an `InvalidOrUnexpectedToken` diagnostic carrying the
marker itself; any other character is dropped with a diagnostic and the
loop continues. -/
def read_number_loop (srcLen : Nat) :
    List Char → List Char → Nat → List Diag →
    List Char × List Char × Nat × List Diag
  | [], number, lp, errs => (number, [], lp, errs)
  | c :: rs, number, lp, errs =>
    if is_ascii_digit c then
      read_number_loop srcLen rs (number ++ [c]) (srcLen - rs.length) errs
    else if is_whitespace c then (number, rs, lp, errs)
    else if c = '.' then
      read_number_loop srcLen rs (number ++ ['.']) (srcLen - rs.length)
        (read_number_dot_errs (srcLen - rs.length) rs errs)
    else if c = 'e' ∨ c = 'E' then
      match rs with
      | c2 :: rs2 =>
        if c2 = '+' ∨ c2 = '-' then
          read_number_loop srcLen rs2 ((number ++ [c]) ++ [c2])
            (srcLen - rs2.length)
            (read_number_sign_errs (srcLen - rs2.length) rs2 errs)
        else if is_ascii_digit c2 then
          read_number_loop srcLen rs2 ((number ++ [c]) ++ [c2])
            (srcLen - rs2.length) errs
        else
          read_number_loop srcLen rs2 (number ++ [c]) (srcLen - rs.length)
            (errs ++ [.invalidOrUnexpectedToken c
              ⟨srcLen - rs.length, srcLen - rs2.length⟩])
      | [] =>
        (number ++ [c], [], srcLen - rs.length,
          errs ++ [.invalidOrUnexpectedToken c
            ⟨srcLen - rs.length, srcLen - rs.length⟩])
    else
      read_number_loop srcLen rs number lp
        (errs ++ [.invalidOrUnexpectedToken c ⟨lp, srcLen - rs.length⟩])

/-- `Lexer::read_number`: the early return when the current character is
neither an ASCII digit nor `e` nor `.` (note: lowercase `e` only), then the
accumulation loop, then the `f64` parse whose failure panics (`none`). -/
def read_number_go (srcLen : Nat) (head : Char) (rest : List Char) (lp : Nat)
    (errs : List Diag) : Option (ℚ × List Char × Nat × List Diag) :=
  match read_number_loop srcLen rest [head] lp errs with
  | (number, rest', lp', errs') =>
    match parse_f64 number with
    | none => none
    | some v => some (v, rest', lp', errs')

def read_number (srcLen : Nat) (head : Char) (rest : List Char) (lp : Nat)
    (errs : List Diag) : Option (ℚ × List Char × Nat × List Diag) :=
  match rest with
  | c :: t =>
    if !is_ascii_digit c && c ≠ 'e' && c ≠ '.' then
      match parse_f64 [head] with
      | none => none
      | some v => some (v, c :: t, lp, errs)
    else read_number_go srcLen head (c :: t) lp errs
  | [] => read_number_go srcLen head [] lp errs

/-- The while-loop of `Lexer::read_binary_number`: every ASCII digit is
accepted (the `is_ascii_digit` test is not restricted to 0 and 1),
whitespace terminates, a dot records `UnexpectedNumber`, anything else
records `InvalidOrUnexpectedToken`. -/
def read_binary_number_loop (srcLen : Nat) :
    List Char → List Char → Nat → List Diag →
    List Char × List Char × Nat × List Diag
  | [], number, lp, errs => (number, [], lp, errs)
  | c :: rs, number, lp, errs =>
    if is_ascii_digit c then
      read_binary_number_loop srcLen rs (number ++ [c]) (srcLen - rs.length) errs
    else if is_whitespace c then (number, rs, lp, errs)
    else if c = '.' then
      read_binary_number_loop srcLen rs number lp
        (errs ++ [.unexpectedNumber c ⟨lp, srcLen - rs.length⟩])
    else
      read_binary_number_loop srcLen rs number lp
        (errs ++ [.invalidOrUnexpectedToken c ⟨lp, srcLen - rs.length⟩])

/-- `Lexer::read_binary_number`: discards one character (`self.chars.next()`,
the `b`/`B` prefix at its call sites under `0`), runs the loop, then parses
the collected digits in base 2; `Err` panics (`none`). -/
def read_binary_number (srcLen : Nat) (rest : List Char) (lp : Nat)
    (errs : List Diag) : Option (ℚ × List Char × Nat × List Diag) :=
  match read_binary_number_loop srcLen rest.tail [] lp errs with
  | (number, rest', lp', errs') =>
    match from_str_radix 2 number with
    | none => none
    | some v => some ((v : ℚ), rest', lp', errs')

/-- The while-loop of `Lexer::read_octal_number`: a digit is accepted when
`c.is_ascii_digit() && ('0'..'7').contains(&c)` — the Rust range is
half-open, so `7` is NOT accepted. -/
def read_octal_number_loop (srcLen : Nat) :
    List Char → List Char → Nat → List Diag →
    List Char × List Char × Nat × List Diag
  | [], number, lp, errs => (number, [], lp, errs)
  | c :: rs, number, lp, errs =>
    if is_ascii_digit c && ('0' ≤ c && c < '7') then
      read_octal_number_loop srcLen rs (number ++ [c]) (srcLen - rs.length) errs
    else if is_whitespace c then (number, rs, lp, errs)
    else if c = '.' then
      read_octal_number_loop srcLen rs number lp
        (errs ++ [.unexpectedNumber c ⟨lp, srcLen - rs.length⟩])
    else
      read_octal_number_loop srcLen rs number lp
        (errs ++ [.invalidOrUnexpectedToken c ⟨lp, srcLen - rs.length⟩])

/-- `Lexer::read_octal_number`: discards one character unconditionally (the
`o`/`O` prefix at the `0o` call site, but the FIRST OCTAL DIGIT at the
legacy-octal call site), runs the loop, parses base 8; `Err` panics. -/
def read_octal_number (srcLen : Nat) (rest : List Char) (lp : Nat)
    (errs : List Diag) : Option (ℚ × List Char × Nat × List Diag) :=
  match read_octal_number_loop srcLen rest.tail [] lp errs with
  | (number, rest', lp', errs') =>
    match from_str_radix 8 number with
    | none => none
    | some v => some ((v : ℚ), rest', lp', errs')

/-- The while-loop of `Lexer::read_hex_number`: accepted digits are ASCII
digits plus `a`-`e` and `A`-`E` (the source's upper bound excludes `f`/`F`). -/
def read_hex_number_loop (srcLen : Nat) :
    List Char → List Char → Nat → List Diag →
    List Char × List Char × Nat × List Diag
  | [], number, lp, errs => (number, [], lp, errs)
  | c :: rs, number, lp, errs =>
    if is_ascii_digit c || ('a' ≤ c && c ≤ 'e') || ('A' ≤ c && c ≤ 'E') then
      read_hex_number_loop srcLen rs (number ++ [c]) (srcLen - rs.length) errs
    else if is_whitespace c then (number, rs, lp, errs)
    else if c = '.' then
      read_hex_number_loop srcLen rs number lp
        (errs ++ [.unexpectedNumber c ⟨lp, srcLen - rs.length⟩])
    else
      read_hex_number_loop srcLen rs number lp
        (errs ++ [.invalidOrUnexpectedToken c ⟨lp, srcLen - rs.length⟩])

/-- `Lexer::read_hex_number`: discard the `x`/`X`, loop, parse base 16. -/
def read_hex_number (srcLen : Nat) (rest : List Char) (lp : Nat)
    (errs : List Diag) : Option (ℚ × List Char × Nat × List Diag) :=
  match read_hex_number_loop srcLen rest.tail [] lp errs with
  | (number, rest', lp', errs') =>
    match from_str_radix 16 number with
    | none => none
    | some v => some ((v : ℚ), rest', lp', errs')

/-- The `for c in self.chars.by_ref()` loop of the line-comment branch:
consume up to and including the first line terminator. -/
def single_comment_loop : List Char → List Char
  | [] => []
  | c :: t => if is_line_terminator c then t else single_comment_loop t

/-- The `while let` loop of the block-comment branch: after consuming a `*`
the code tests `self.peek()` (two characters ahead) for `/`, and on success
consumes one further character before breaking. -/
def multi_comment_loop : List Char → List Char
  | [] => []
  | c :: t => if c = '*' ∧ t[1]? = some '/' then t.tail else multi_comment_loop t

/-- The `0`-lead numeric branch of `Lexer::read_next_kind` (the `match
self.cur()` computing `value`): `rs` is the input after the consumed `0`
and `off1` is the offset just after it (`self.offset()`, which the source
reads into `start` in the legacy arms).  The legacy arms push their
diagnostic after the inner scan finished, spanning from the leading zero
(`start - 1`) to the offset after the number. -/
def read_zero (srcLen : Nat) (rs : List Char) (off1 lp : Nat)
    (errs : List Diag) : Option (ℚ × List Char × Nat × List Diag) :=
  match rs with
  | 'b' :: _ => read_binary_number srcLen rs lp errs
  | 'B' :: _ => read_binary_number srcLen rs lp errs
  | 'o' :: _ => read_octal_number srcLen rs lp errs
  | 'O' :: _ => read_octal_number srcLen rs lp errs
  | 'x' :: _ => read_hex_number srcLen rs lp errs
  | 'X' :: _ => read_hex_number srcLen rs lp errs
  | c1 :: rs1 =>
    if is_whitespace c1 then some (0, c1 :: rs1, lp, errs)
    else if '8' ≤ c1 ∧ c1 ≤ '9' then
      -- `let start = self.offset()`; consume c1; scan; then push the
      -- legacy-decimal-escape diagnostic after the scan
      match read_number srcLen c1 rs1 lp errs with
      | none => none
      | some (v, r', l', e') =>
        some (v, r', l',
          e' ++ [.legacyDecimalEscape ⟨off1 - 1, srcLen - r'.length⟩])
    else if '0' ≤ c1 ∧ c1 ≤ '7' then
      -- the octal reader consumes c1 itself (and discards it)
      match read_octal_number srcLen (c1 :: rs1) lp errs with
      | none => none
      | some (v, r', l', e') =>
        some (v, r', l',
          e' ++ [.legacyOctalLiteral ⟨off1 - 1, srcLen - r'.length⟩])
    else if c1 = '.' then
      match rs1 with
      | c2 :: _ =>
        if is_ascii_digit c2 then read_number srcLen '0' (c1 :: rs1) lp errs
        else some (0, c1 :: rs1, lp,
          errs ++ [.invalidOrUnexpectedToken '0' ⟨lp, off1⟩])
      | [] => some (0, c1 :: rs1, lp,
          errs ++ [.invalidOrUnexpectedToken '0' ⟨lp, off1⟩])
    else some (0, c1 :: rs1, lp,
      errs ++ [.invalidOrUnexpectedToken '0' ⟨lp, off1⟩])
  | [] => some (0, [], lp,
      errs ++ [.invalidOrUnexpectedToken '0' ⟨lp, off1⟩])

/-- `Lexer::read_next_kind`.  Returns `none` where the source panics: the
unrecognized-lead-character `panic!` and the `expect` failures of the
numeric parses.  On success returns the token kind together with the
remaining characters, the updated `last_pos` and the updated error list.
Branch by branch this mirrors the `match` of the source; in particular every
two-character look is written against `self.peek()` = `rest[1]?` exactly
where the source uses `peek`, and against `rest.head?` where it uses `cur`. -/
def read_next_kind (srcLen : Nat) (rest : List Char) (lp : Nat)
    (errs : List Diag) : Option (TokenKind × List Char × Nat × List Diag) :=
  match rest with
  | [] => some (.eof, [], srcLen, errs)
  | c :: rs =>
    let off1 := srcLen - rs.length
    match c with
    | '\'' =>
      match read_string_literal srcLen '\'' rs lp with
      | (value, raw, rest', _) =>
        some (.string value raw, rest', srcLen - rest'.length, errs)
    | '"' =>
      match read_string_literal srcLen '"' rs lp with
      | (value, raw, rest', _) =>
        some (.string value raw, rest', srcLen - rest'.length, errs)
    | ')' => some (.rparen, rs, off1, errs)
    | '(' => some (.lparen, rs, off1, errs)
    | '{' => some (.lbrace, rs, off1, errs)
    | '}' => some (.rbrace, rs, off1, errs)
    | '[' => some (.lbracket, rs, off1, errs)
    | ']' => some (.rbracket, rs, off1, errs)
    | ':' => some (.colon, rs, off1, errs)
    | '!' =>
      -- peek `=` (two ahead): consume one, update last_pos, peek again
      match rs with
      | _ :: '=' :: t =>
        match t with
        | '=' :: _ => some (.binaryOp .neNe, t, srcLen - t.length, errs)
        | _ => some (.binaryOp .ne, '=' :: t, srcLen - (t.length + 1), errs)
      | _ => some (.bang, rs, off1, errs)
    | '?' => some (.question, rs, off1, errs)
    | ';' => some (.semicolon, rs, off1, errs)
    | ',' => some (.comma, rs, off1, errs)
    | '+' =>
      match rs with
      | _ :: '=' :: t =>
        some (.assignOp .addAssign, '=' :: t, srcLen - (t.length + 1), errs)
      | _ :: '+' :: t =>
        some (.plusPlus, '+' :: t, srcLen - (t.length + 1), errs)
      | _ => some (.binaryOp .add, rs, off1, errs)
    | '-' =>
      -- the `-` subcases do not update last_pos after consuming
      match rs with
      | _ :: '-' :: t => some (.minusMinus, '-' :: t, off1, errs)
      | _ :: '=' :: t => some (.assignOp .subAssign, '=' :: t, off1, errs)
      | _ => some (.binaryOp .sub, rs, off1, errs)
    | '*' =>
      match rs with
      | _ :: '=' :: t => some (.assignOp .mulAssign, '=' :: t, off1, errs)
      | _ => some (.binaryOp .mul, rs, off1, errs)
    | '/' =>
      -- this branch tests `self.cur()` = `rs.head?`
      match rs with
      | '/' :: u =>
        -- two `next()` calls consume the second `/` and one further char
        let rest' := single_comment_loop u.tail
        some (.singleLineComment, rest', srcLen - rest'.length, errs)
      | '*' :: u =>
        let rest' := multi_comment_loop u.tail
        some (.multiLineComment, rest', srcLen - rest'.length, errs)
      | '=' :: t => some (.assignOp .divAssign, t, srcLen - t.length, errs)
      | _ => some (.binaryOp .div, rs, off1, errs)
    | '%' =>
      match rs with
      | _ :: '=' :: t => some (.assignOp .modAssign, '=' :: t, off1, errs)
      | _ => some (.binaryOp .mod, rs, off1, errs)
    | '=' =>
      -- cur `>` first (arrow), else peek `=`
      match rs with
      | '>' :: t => some (.arrow, t, srcLen - t.length, errs)
      | _ :: '=' :: t =>
        match t with
        | '=' :: _ => some (.binaryOp .eq, t, srcLen - t.length, errs)
        | _ => some (.binaryOp .eqEq, '=' :: t, srcLen - (t.length + 1), errs)
      | _ => some (.assignOp .assign, rs, off1, errs)
    | '>' =>
      match rs with
      | '=' :: t => some (.binaryOp .ge, t, srcLen - t.length, errs)
      | _ :: '>' :: t =>
        match t with
        | '>' :: t2 =>
          match t2 with
          | '=' :: _ =>
            some (.assignOp .zeroFillRightShiftAssign, t2,
              srcLen - t2.length, errs)
          | _ =>
            some (.binaryOp .zeroFillRightShift, '>' :: t2,
              srcLen - (t2.length + 1), errs)
        | '=' :: _ => some (.assignOp .rightShiftAssign, t, srcLen - t.length, errs)
        | _ => some (.binaryOp .rshift, '>' :: t, srcLen - (t.length + 1), errs)
      | _ => some (.binaryOp .gt, rs, off1, errs)
    | '<' =>
      match rs with
      | '=' :: t => some (.binaryOp .le, t, srcLen - t.length, errs)
      | _ :: '<' :: t => some (.binaryOp .lshift, '<' :: t, srcLen - (t.length + 1), errs)
      | _ => some (.binaryOp .lt, rs, off1, errs)
    | '&' =>
      match rs with
      | '&' :: t => some (.binaryOp .logicalAnd, t, srcLen - t.length, errs)
      | '=' :: t => some (.assignOp .bitAndAssign, t, srcLen - t.length, errs)
      | _ => some (.binaryOp .bitAnd, rs, off1, errs)
    | '|' =>
      match rs with
      | '|' :: t => some (.binaryOp .logicalOr, t, srcLen - t.length, errs)
      | '=' :: t => some (.assignOp .bitOrAssign, t, srcLen - t.length, errs)
      | _ => some (.binaryOp .bitOr, rs, off1, errs)
    | '^' =>
      match rs with
      | _ :: '=' :: t =>
        some (.assignOp .bitXorAssign, '=' :: t, srcLen - (t.length + 1), errs)
      | _ => some (.binaryOp .bitXor, rs, off1, errs)
    | '~' => some (.tilde, rs, off1, errs)
    | c =>
      if is_ascii_digit c then
        if c = '0' then
          match read_zero srcLen rs off1 lp errs with
          | none => none
          | some (v, r', _, e') => some (.number v, r', srcLen - r'.length, e')
        else
          match read_number srcLen c rs lp errs with
          | none => none
          | some (v, r', _, e') => some (.number v, r', srcLen - r'.length, e')
      else if c = '.' then
        match rs with
        | _ :: c2 :: _ =>
          if is_ascii_digit c2 then
            match read_number srcLen '.' rs lp errs with
            | none => none
            | some (v, r', l', e') => some (.number v, r', l', e')
          else some (.dot, rs, off1, errs)
        | _ => some (.dot, rs, off1, errs)
      else if is_ident_start c then
        match read_identifier srcLen c rs lp errs with
        | (k, r', l', e') => some (k, r', l', e')
      else none

/-- `Lexer::read_next_token`: skip whitespace, record the start offset,
dispatch, and span the token from the start offset to the final `last_pos`. -/
def read_next_token (srcLen : Nat) (rest : List Char) (lp : Nat)
    (errs : List Diag) : Option (Token × List Char × Nat × List Diag) :=
  match read_next_kind srcLen (skip_whitespace rest) lp errs with
  | none => none
  | some (k, rest2, lp2, errs2) =>
    some (⟨k, ⟨srcLen - (skip_whitespace rest).length, lp2⟩⟩,
      rest2, lp2, errs2)

/-- Outcome of `Lexer::lex`: a normal return of tokens and errors, a process
abort (`panic!` / failed `expect`), or — an artefact of the fuelled
formalisation only — fuel exhaustion, proved unreachable in `C8`. -/
inductive LexOut where
  | out (tokens : List Token) (errors : List Diag)
  | abort
  | fuelOut
deriving DecidableEq, Repr

/-- The scan loop of `Lexer::lex`, with explicit fuel. -/
def lex_loop (srcLen : Nat) : Nat → List Char → Nat → List Diag → LexOut
  | 0, _, _, _ => .fuelOut
  | fuel + 1, rest, lp, errs =>
    match read_next_token srcLen rest lp errs with
    | none => .abort
    | some (t, rest', lp', errs') =>
      if t.kind = .eof then .out [] errs'
      else
        match lex_loop srcLen fuel rest' lp' errs' with
        | .out ts es => .out (t :: ts) es
        | r => r

/-- `Lexer::new` followed by `Lexer::lex`: scan the whole source, returning
the token sequence and the diagnostic sequence. -/
def lex (source : List Char) : LexOut :=
  lex_loop source.length (source.length + 1) source 0 []

/-! Length facts: every scanning loop only consumes input, never grows it. -/

theorem skip_whitespace_length (l : List Char) :
    (skip_whitespace l).length ≤ l.length := by
  induction l with
  | nil => simp [skip_whitespace]
  | cons c rs ih =>
    simp only [skip_whitespace]
    split
    · exact Nat.le_succ_of_le ih
    · simp

theorem single_comment_loop_length (l : List Char) :
    (single_comment_loop l).length ≤ l.length := by
  induction l with
  | nil => simp [single_comment_loop]
  | cons c t ih =>
    simp only [single_comment_loop]
    split
    · simp
    · exact Nat.le_succ_of_le ih

theorem multi_comment_loop_length (l : List Char) :
    (multi_comment_loop l).length ≤ l.length := by
  induction l with
  | nil => simp [multi_comment_loop]
  | cons c t ih =>
    simp only [multi_comment_loop]
    split
    · have := List.length_tail t
      simp only [List.length_cons]
      omega
    · exact Nat.le_succ_of_le ih

theorem read_string_literal_loop_length_aux (srcLen : Nat) (q : Char) :
    ∀ (n : Nat) (rest : List Char), rest.length ≤ n →
      ∀ (string raw : List Char) (lp : Nat),
        (read_string_literal_loop srcLen q rest string raw lp).2.2.1.length
          ≤ rest.length := by
  intro n
  induction n with
  | zero =>
    intro rest h string raw lp
    have hrest : rest = [] := by cases rest <;> simp_all
    subst hrest
    simp [read_string_literal_loop]
  | succ n ih =>
    intro rest h string raw lp
    rw [read_string_literal_loop.eq_def]
    split
    · simp
    · rename_i rs
      cases rs with
      | nil => simp
      | cons nc rs2 =>
        have h2 := ih rs2 (by simp_all only [List.length_cons]; omega)
          (string ++ [decode_escape nc]) (raw ++ ['\\', nc]) (srcLen - rs2.length)
        simp only [List.length_cons] at h2 ⊢
        omega
    · rename_i c rs hne
      split
      · simp
      · have h2 := ih rs (by simp_all only [List.length_cons]; omega)
          (string ++ [c]) (raw ++ [c]) (srcLen - rs.length)
        simp only [List.length_cons] at h2 ⊢
        omega

theorem read_string_literal_loop_length (srcLen : Nat) (q : Char)
    (rest string raw : List Char) (lp : Nat) :
    (read_string_literal_loop srcLen q rest string raw lp).2.2.1.length
      ≤ rest.length :=
  read_string_literal_loop_length_aux srcLen q rest.length rest le_rfl string raw lp

theorem read_identifier_loop_length (srcLen : Nat) :
    ∀ (rest ident : List Char) (lp : Nat) (errs : List Diag),
      (read_identifier_loop srcLen rest ident lp errs).2.1.length
        ≤ rest.length := by
  intro rest
  induction rest with
  | nil => intro ident lp errs; simp [read_identifier_loop]
  | cons c rs ih =>
    intro ident lp errs
    rw [read_identifier_loop.eq_def]
    simp only [List.length_cons]
    split
    · have := ih (ident ++ [c]) (srcLen - rs.length) errs
      omega
    · split
      · simp
      · have := ih ident lp
          (errs ++ [.unexpectedToken c ⟨lp, srcLen - rs.length⟩])
        omega

theorem read_binary_number_loop_length (srcLen : Nat) :
    ∀ (rest number : List Char) (lp : Nat) (errs : List Diag),
      (read_binary_number_loop srcLen rest number lp errs).2.1.length
        ≤ rest.length := by
  intro rest
  induction rest with
  | nil => intro number lp errs; simp [read_binary_number_loop]
  | cons c rs ih =>
    intro number lp errs
    rw [read_binary_number_loop.eq_def]
    simp only [List.length_cons]
    split
    · have := ih (number ++ [c]) (srcLen - rs.length) errs
      omega
    · split
      · simp
      · split
        · have := ih number lp
            (errs ++ [.unexpectedNumber c ⟨lp, srcLen - rs.length⟩])
          omega
        · have := ih number lp
            (errs ++ [.invalidOrUnexpectedToken c ⟨lp, srcLen - rs.length⟩])
          omega

theorem read_octal_number_loop_length (srcLen : Nat) :
    ∀ (rest number : List Char) (lp : Nat) (errs : List Diag),
      (read_octal_number_loop srcLen rest number lp errs).2.1.length
        ≤ rest.length := by
  intro rest
  induction rest with
  | nil => intro number lp errs; simp [read_octal_number_loop]
  | cons c rs ih =>
    intro number lp errs
    rw [read_octal_number_loop.eq_def]
    simp only [List.length_cons]
    split
    · have := ih (number ++ [c]) (srcLen - rs.length) errs
      omega
    · split
      · simp
      · split
        · have := ih number lp
            (errs ++ [.unexpectedNumber c ⟨lp, srcLen - rs.length⟩])
          omega
        · have := ih number lp
            (errs ++ [.invalidOrUnexpectedToken c ⟨lp, srcLen - rs.length⟩])
          omega

theorem read_hex_number_loop_length (srcLen : Nat) :
    ∀ (rest number : List Char) (lp : Nat) (errs : List Diag),
      (read_hex_number_loop srcLen rest number lp errs).2.1.length
        ≤ rest.length := by
  intro rest
  induction rest with
  | nil => intro number lp errs; simp [read_hex_number_loop]
  | cons c rs ih =>
    intro number lp errs
    rw [read_hex_number_loop.eq_def]
    simp only [List.length_cons]
    split
    · have := ih (number ++ [c]) (srcLen - rs.length) errs
      omega
    · split
      · simp
      · split
        · have := ih number lp
            (errs ++ [.unexpectedNumber c ⟨lp, srcLen - rs.length⟩])
          omega
        · have := ih number lp
            (errs ++ [.invalidOrUnexpectedToken c ⟨lp, srcLen - rs.length⟩])
          omega

set_option maxHeartbeats 1000000 in
theorem read_number_loop_length_aux (srcLen : Nat) :
    ∀ (n : Nat) (rest : List Char), rest.length ≤ n →
      ∀ (number : List Char) (lp : Nat) (errs : List Diag),
        (read_number_loop srcLen rest number lp errs).2.1.length
          ≤ rest.length := by
  intro n
  induction n with
  | zero =>
    intro rest h number lp errs
    have hrest : rest = [] := by cases rest <;> simp_all
    subst hrest
    rw [read_number_loop.eq_def]
  | succ n ih =>
    intro rest h number lp errs
    rw [read_number_loop.eq_def]
    split
    · simp
    · rename_i c rs
      simp only [List.length_cons] at h ⊢
      split
      · have := ih rs (by omega) (number ++ [c]) (srcLen - rs.length) errs
        omega
      · split
        · simp
        · split
          · have := ih rs (by omega) (number ++ ['.']) (srcLen - rs.length)
              (read_number_dot_errs (srcLen - rs.length) rs errs)
            omega
          · split
            · rename_i hee
              cases rs with
              | nil => simp
              | cons c2 rs2 =>
                simp only [List.length_cons] at h ⊢
                split
                · have := ih rs2 (by omega) ((number ++ [c]) ++ [c2])
                    (srcLen - rs2.length)
                    (read_number_sign_errs (srcLen - rs2.length) rs2 errs)
                  omega
                · split
                  · have := ih rs2 (by omega) ((number ++ [c]) ++ [c2])
                      (srcLen - rs2.length) errs
                    omega
                  · have := ih rs2 (by omega) (number ++ [c])
                      (srcLen - (c2 :: rs2).length)
                      (errs ++ [.invalidOrUnexpectedToken c
                        ⟨srcLen - (c2 :: rs2).length, srcLen - rs2.length⟩])
                    simp only [List.length_cons] at this
                    omega
            · have := ih rs (by omega) number lp
                (errs ++ [.invalidOrUnexpectedToken c ⟨lp, srcLen - rs.length⟩])
              omega

theorem read_number_loop_length (srcLen : Nat) (rest number : List Char)
    (lp : Nat) (errs : List Diag) :
    (read_number_loop srcLen rest number lp errs).2.1.length ≤ rest.length :=
  read_number_loop_length_aux srcLen rest.length rest le_rfl number lp errs
theorem read_number_go_length {srcLen : Nat} {head : Char} {rest : List Char}
    {lp : Nat} {errs : List Diag} {v : ℚ} {r' : List Char} {l' : Nat}
    {e' : List Diag}
    (h : read_number_go srcLen head rest lp errs = some (v, r', l', e')) :
    r'.length ≤ rest.length := by
  have hl := read_number_loop_length srcLen rest [head] lp errs
  unfold read_number_go at h
  rcases heq : read_number_loop srcLen rest [head] lp errs with
    ⟨number, rest1, lp1, errs1⟩
  rw [heq] at h hl
  split at h
  rename_i x ident rest2 lp2 errs2 htup
  injection htup with h1 hr
  injection hr with h2 hr2
  injection hr2 with h3 h4
  subst h1; subst h2; subst h3; subst h4
  split at h
  · exact absurd h (by simp)
  · simp only [Option.some.injEq, Prod.mk.injEq] at h
    obtain ⟨-, h2, -, -⟩ := h
    subst h2
    exact hl

theorem read_number_length {srcLen : Nat} {head : Char} {rest : List Char}
    {lp : Nat} {errs : List Diag} {v : ℚ} {r' : List Char} {l' : Nat}
    {e' : List Diag}
    (h : read_number srcLen head rest lp errs = some (v, r', l', e')) :
    r'.length ≤ rest.length := by
  unfold read_number at h
  split at h
  · split at h
    · split at h
      · exact absurd h (by simp)
      · simp only [Option.some.injEq, Prod.mk.injEq] at h
        obtain ⟨-, h2, -, -⟩ := h
        subst h2
        exact le_rfl
    · exact read_number_go_length h
  · exact read_number_go_length h

theorem read_binary_number_length {srcLen : Nat} {rest : List Char}
    {lp : Nat} {errs : List Diag} {v : ℚ} {r' : List Char} {l' : Nat}
    {e' : List Diag}
    (h : read_binary_number srcLen rest lp errs = some (v, r', l', e')) :
    r'.length ≤ rest.length := by
  have hl := read_binary_number_loop_length srcLen rest.tail [] lp errs
  have ht := List.length_tail rest
  unfold read_binary_number at h
  rcases heq : read_binary_number_loop srcLen rest.tail [] lp errs with
    ⟨number, rest1, lp1, errs1⟩
  rw [heq] at h hl
  split at h
  rename_i x ident rest2 lp2 errs2 htup
  injection htup with h1 hr
  injection hr with h2 hr2
  injection hr2 with h3 h4
  subst h1; subst h2; subst h3; subst h4
  split at h
  · exact absurd h (by simp)
  · simp only [Option.some.injEq, Prod.mk.injEq] at h
    obtain ⟨-, h2, -, -⟩ := h
    subst h2
    simp only at hl
    omega

theorem read_octal_number_length {srcLen : Nat} {rest : List Char}
    {lp : Nat} {errs : List Diag} {v : ℚ} {r' : List Char} {l' : Nat}
    {e' : List Diag}
    (h : read_octal_number srcLen rest lp errs = some (v, r', l', e')) :
    r'.length ≤ rest.length := by
  have hl := read_octal_number_loop_length srcLen rest.tail [] lp errs
  have ht := List.length_tail rest
  unfold read_octal_number at h
  rcases heq : read_octal_number_loop srcLen rest.tail [] lp errs with
    ⟨number, rest1, lp1, errs1⟩
  rw [heq] at h hl
  split at h
  rename_i x ident rest2 lp2 errs2 htup
  injection htup with h1 hr
  injection hr with h2 hr2
  injection hr2 with h3 h4
  subst h1; subst h2; subst h3; subst h4
  split at h
  · exact absurd h (by simp)
  · simp only [Option.some.injEq, Prod.mk.injEq] at h
    obtain ⟨-, h2, -, -⟩ := h
    subst h2
    simp only at hl
    omega

theorem read_hex_number_length {srcLen : Nat} {rest : List Char}
    {lp : Nat} {errs : List Diag} {v : ℚ} {r' : List Char} {l' : Nat}
    {e' : List Diag}
    (h : read_hex_number srcLen rest lp errs = some (v, r', l', e')) :
    r'.length ≤ rest.length := by
  have hl := read_hex_number_loop_length srcLen rest.tail [] lp errs
  have ht := List.length_tail rest
  unfold read_hex_number at h
  rcases heq : read_hex_number_loop srcLen rest.tail [] lp errs with
    ⟨number, rest1, lp1, errs1⟩
  rw [heq] at h hl
  split at h
  rename_i x ident rest2 lp2 errs2 htup
  injection htup with h1 hr
  injection hr with h2 hr2
  injection hr2 with h3 h4
  subst h1; subst h2; subst h3; subst h4
  split at h
  · exact absurd h (by simp)
  · simp only [Option.some.injEq, Prod.mk.injEq] at h
    obtain ⟨-, h2, -, -⟩ := h
    subst h2
    simp only at hl
    omega

theorem read_identifier_length (srcLen : Nat) (head : Char)
    (rest : List Char) (lp : Nat) (errs : List Diag) :
    (read_identifier srcLen head rest lp errs).2.1.length ≤ rest.length := by
  have h := read_identifier_loop_length srcLen rest [head] lp errs
  unfold read_identifier
  rcases heq : read_identifier_loop srcLen rest [head] lp errs with
    ⟨ident, rest1, lp1, errs1⟩
  rw [heq] at h
  exact h

theorem read_identifier_word (srcLen : Nat) (head : Char)
    (rest : List Char) (lp : Nat) (errs : List Diag) :
    ∃ w, (read_identifier srcLen head rest lp errs).1 = .word w := by
  unfold read_identifier
  rcases heq : read_identifier_loop srcLen rest [head] lp errs with
    ⟨ident, rest1, lp1, errs1⟩
  exact ⟨match_keyword ident, rfl⟩

theorem read_string_literal_length_eq {srcLen : Nat} {q : Char}
    {rest : List Char} {lp : Nat} {value raw rest' : List Char} {l' : Nat}
    (h : read_string_literal srcLen q rest lp = (value, raw, rest', l')) :
    rest'.length ≤ rest.length := by
  have h1 := read_string_literal_loop_length srcLen q rest [] [q] lp
  unfold read_string_literal at h
  rw [h] at h1
  exact h1

theorem single_comment_tail_le (u : List Char) :
    (single_comment_loop u.tail).length ≤ u.length + 1 := by
  have h1 := single_comment_loop_length u.tail
  have h2 := List.length_tail u
  omega

theorem multi_comment_tail_le (u : List Char) :
    (multi_comment_loop u.tail).length ≤ u.length + 1 := by
  have h1 := multi_comment_loop_length u.tail
  have h2 := List.length_tail u
  omega

theorem read_zero_length {srcLen : Nat} {rs : List Char} {off1 lp : Nat}
    {errs : List Diag} {v : ℚ} {r' : List Char} {l' : Nat} {e' : List Diag}
    (h : read_zero srcLen rs off1 lp errs = some (v, r', l', e')) :
    r'.length ≤ rs.length := by
  unfold read_zero at h
  split at h
  · exact read_binary_number_length h
  · exact read_binary_number_length h
  · exact read_octal_number_length h
  · exact read_octal_number_length h
  · exact read_hex_number_length h
  · exact read_hex_number_length h
  · split at h
    · simp only [Option.some.injEq, Prod.mk.injEq] at h
      obtain ⟨-, h2, -, -⟩ := h
      subst h2
      exact le_rfl
    · split at h
      · split at h
        · exact absurd h (by simp)
        · rename_i heq
          simp only [Option.some.injEq, Prod.mk.injEq] at h
          obtain ⟨-, h2, -, -⟩ := h
          subst h2
          have := read_number_length heq
          simp only [List.length_cons]
          omega
      · split at h
        · split at h
          · exact absurd h (by simp)
          · rename_i heq
            simp only [Option.some.injEq, Prod.mk.injEq] at h
            obtain ⟨-, h2, -, -⟩ := h
            subst h2
            exact read_octal_number_length heq
        · split at h
          · split at h
            · split at h
              · exact read_number_length h
              · simp only [Option.some.injEq, Prod.mk.injEq] at h
                obtain ⟨-, h2, -, -⟩ := h
                subst h2
                exact le_rfl
            · simp only [Option.some.injEq, Prod.mk.injEq] at h
              obtain ⟨-, h2, -, -⟩ := h
              subst h2
              exact le_rfl
          · simp only [Option.some.injEq, Prod.mk.injEq] at h
            obtain ⟨-, h2, -, -⟩ := h
            subst h2
            exact le_rfl
  · simp only [Option.some.injEq, Prod.mk.injEq] at h
    obtain ⟨-, h2, -, -⟩ := h
    subst h2
    exact le_rfl
theorem read_string_literal_length (srcLen : Nat) (q : Char)
    (rest : List Char) (lp : Nat) :
    (read_string_literal srcLen q rest lp).2.2.1.length ≤ rest.length := by
  unfold read_string_literal
  exact read_string_literal_loop_length srcLen q rest [] [q] lp

theorem read_identifier_kind_ne_eof (srcLen : Nat) (head : Char)
    (rest : List Char) (lp : Nat) (errs : List Diag) :
    (read_identifier srcLen head rest lp errs).1 ≠ .eof := by
  obtain ⟨w, hw⟩ := read_identifier_word srcLen head rest lp errs
  rw [hw]
  simp

theorem read_identifier_kind_ne_lsa (srcLen : Nat) (head : Char)
    (rest : List Char) (lp : Nat) (errs : List Diag) :
    (read_identifier srcLen head rest lp errs).1
      ≠ .assignOp .leftShiftAssign := by
  obtain ⟨w, hw⟩ := read_identifier_word srcLen head rest lp errs
  rw [hw]
  simp

set_option maxHeartbeats 4000000 in
theorem read_next_kind_cons_spec {srcLen : Nat} {c : Char} {rs : List Char}
    {lp : Nat} {errs : List Diag} {k : TokenKind} {rest2 : List Char}
    {lp2 : Nat} {errs2 : List Diag}
    (h : read_next_kind srcLen (c :: rs) lp errs
      = some (k, rest2, lp2, errs2)) :
    rest2.length ≤ rs.length ∧ k ≠ .eof ∧ k ≠ .assignOp .leftShiftAssign := by
  simp only [read_next_kind] at h
  split at h
  all_goals try (repeat' (split at h))
  all_goals
    first
    | (simp at h; done)
    | (simp only [Option.some.injEq, Prod.mk.injEq] at h
       obtain ⟨hk, hr, hl2, he2⟩ := h
       subst hk
       subst hr
       refine ⟨?_, ?_, ?_⟩
       · first
         | exact le_rfl
         | (simp only [List.length_cons, List.length_nil]; omega)
         | exact read_string_literal_length _ _ _ _
         | exact read_identifier_length _ _ _ _ _
         | (simp only [List.length_cons]; exact single_comment_tail_le _)
         | (simp only [List.length_cons]; exact multi_comment_tail_le _)
         | (apply read_zero_length; assumption)
         | (apply read_number_length; assumption)
       · first
         | exact read_identifier_kind_ne_eof _ _ _ _ _
         | simp
       · first
         | exact read_identifier_kind_ne_lsa _ _ _ _ _
         | simp)
theorem read_next_token_spec {srcLen : Nat} {rest : List Char} {lp : Nat}
    {errs : List Diag} {t : Token} {rest' : List Char} {lp' : Nat}
    {errs' : List Diag}
    (h : read_next_token srcLen rest lp errs = some (t, rest', lp', errs')) :
    (t.kind = .eof ∨ rest'.length < rest.length)
      ∧ t.kind ≠ .assignOp .leftShiftAssign := by
  have hws := skip_whitespace_length rest
  unfold read_next_token at h
  rcases hsw : skip_whitespace rest with _ | ⟨c, rs⟩ <;> rw [hsw] at h
  · simp only [read_next_kind, Option.some.injEq, Prod.mk.injEq] at h
    obtain ⟨ht, hr, -, -⟩ := h
    subst ht
    exact ⟨Or.inl rfl, by simp⟩
  · rw [hsw] at hws
    rcases hk : read_next_kind srcLen (c :: rs) lp errs with
      _ | ⟨k, rest2, lp2, errs2⟩ <;> rw [hk] at h
    · simp at h
    · obtain ⟨hlen, hne, hnl⟩ := read_next_kind_cons_spec hk
      simp only [Option.some.injEq, Prod.mk.injEq] at h
      obtain ⟨ht, hr, -, -⟩ := h
      subst ht
      subst hr
      refine ⟨Or.inr ?_, hnl⟩
      simp only [List.length_cons] at hws
      omega

theorem lex_loop_out_facts (srcLen : Nat) :
    ∀ (fuel : Nat) (rest : List Char) (lp : Nat) (errs : List Diag)
      (ts : List Token) (es : List Diag),
      lex_loop srcLen fuel rest lp errs = .out ts es →
      ts.length ≤ rest.length ∧
        ∀ t ∈ ts, t.kind ≠ .assignOp .leftShiftAssign := by
  intro fuel
  induction fuel with
  | zero =>
    intro rest lp errs ts es h
    simp [lex_loop] at h
  | succ fuel ih =>
    intro rest lp errs ts es h
    rw [lex_loop] at h
    split at h
    · simp at h
    · rename_i t rest' lp' errs' hrt
      obtain ⟨hprog, hnl⟩ := read_next_token_spec hrt
      split at h
      · simp only [LexOut.out.injEq] at h
        obtain ⟨h1, -⟩ := h
        subst h1
        simp
      · rename_i hne
        split at h
        · rename_i ts0 es0 hrec
          simp only [LexOut.out.injEq] at h
          obtain ⟨h1, -⟩ := h
          subst h1
          obtain ⟨hlen0, hlsa0⟩ := ih rest' lp' errs' ts0 es0 hrec
          have hlt : rest'.length < rest.length := by
            rcases hprog with he | hl
            · exact absurd he hne
            · exact hl
          constructor
          · simp only [List.length_cons]
            omega
          · intro t2 ht2
            rcases List.mem_cons.mp ht2 with h2 | h2
            · subst h2; exact hnl
            · exact hlsa0 t2 h2
        · rename_i r hr2
          first
          | simp at h
          | exact absurd h (hr2 ts es)
theorem lex_loop_no_fuel_exhaustion (srcLen : Nat) :
    ∀ (fuel : Nat) (rest : List Char) (lp : Nat) (errs : List Diag),
      rest.length < fuel →
      lex_loop srcLen fuel rest lp errs ≠ .fuelOut := by
  intro fuel
  induction fuel with
  | zero => intro rest lp errs h; omega
  | succ fuel ih =>
    intro rest lp errs h
    rw [lex_loop]
    split
    · simp
    · rename_i t rest' lp' errs' hrt
      obtain ⟨hprog, -⟩ := read_next_token_spec hrt
      split
      · simp
      · rename_i hne
        have hlt : rest'.length < rest.length := by
          rcases hprog with he | hl
          · exact absurd he hne
          · exact hl
        have hih := ih rest' lp' errs' (by omega)
        split
        · simp
        · exact hih
/-! The claims.  Inputs are written as explicit character lists; `lex` is the
full scan of `Lexer::new(..).lex()`. -/

/-- C1: the claim states that lexing each multi-character operator of the
disambiguation table alone yields one token spanning the whole operator:
one `BinaryOp Ne` over [0,2) for `!=`, one `BinaryOp NeNe` over [0,3) for
`!==`, one token over [0,2) for `==`, one `PlusPlus` over [0,2) for `++`.
The code instead checks `self.peek()` — the character TWO positions ahead —
in these branches, so `!=` lexes as `Bang`[0,1) plus `Assign`[1,2), `!==`
as `Ne`[0,2) plus `Assign`[2,3), `==` as two `Assign` tokens, and `++` as
two `Add` tokens.  This theorem evaluates the embedded lexer at those four
inputs. -/
theorem C1_operator_disambiguation_behavior :
    lex ['!', '='] = .out [⟨.bang, ⟨0, 1⟩⟩, ⟨.assignOp .assign, ⟨1, 2⟩⟩] []
    ∧ lex ['!', '=', '='] =
        .out [⟨.binaryOp .ne, ⟨0, 2⟩⟩, ⟨.assignOp .assign, ⟨2, 3⟩⟩] []
    ∧ lex ['=', '='] =
        .out [⟨.assignOp .assign, ⟨0, 1⟩⟩, ⟨.assignOp .assign, ⟨1, 2⟩⟩] []
    ∧ lex ['+', '+'] =
        .out [⟨.binaryOp .add, ⟨0, 1⟩⟩, ⟨.binaryOp .add, ⟨1, 2⟩⟩] [] := by
  decide

/-- C2: the claim states that for every input on which lexing returns, every
character strictly between one token's span end and the next token's span
start is whitespace or comment text.  On `---` the code emits
`MinusMinus`[0,1) and `Sub`[2,3) (the `-` branch never updates `last_pos`
after consuming), leaving the middle `-` — not whitespace, and not inside
any comment token — in the gap.  This theorem evaluates that input and
records that `-` is not whitespace. -/
theorem C2_span_gap_not_whitespace :
    lex ['-', '-', '-'] =
      .out [⟨.minusMinus, ⟨0, 1⟩⟩, ⟨.binaryOp .sub, ⟨2, 3⟩⟩] []
    ∧ is_whitespace '-' = false := by decide

/-- C3: the claim states that a legacy numeric literal records exactly one
matching diagnostic spanning the whole literal and still yields the
correctly parsed value — decimal for the 8/9 form, base-8 for the octal
form, and in particular value 10 for `012`.  The 8/9 half holds (`08`
yields 8 with one `LegacyDecimalEscape` over [0,2)), but the octal reader
discards its first character (it was written to skip the `o` of `0o`), so
`012` yields value 2 — not 10 — and `07` panics on an empty digit string. -/
theorem C3_legacy_numeric_value :
    lex ['0', '1', '2'] =
      .out [⟨.number 2, ⟨0, 3⟩⟩] [.legacyOctalLiteral ⟨0, 3⟩]
    ∧ lex ['0', '8'] =
        .out [⟨.number 8, ⟨0, 2⟩⟩] [.legacyDecimalEscape ⟨0, 2⟩]
    ∧ lex ['0', '7'] = .abort := by decide

/-- C4: the claim states that binary-literal scanning accepts only the
digits 0 and 1, raises diagnostics for `.` and other characters without
aborting, and parses the collected digits in base 2 — without crashing, for
every such literal.  The code's digit test is `is_ascii_digit`, so `2`
through `9` are collected too, and `0b2` then panics when `2` is parsed in
base 2 (modelled as `.abort`).  The dot diagnostic itself works: `0b1.1`
yields value 3 with one `UnexpectedNumber` diagnostic. -/
theorem C4_binary_literal_scan :
    lex ['0', 'b', '2'] = .abort
    ∧ lex ['0', 'b', '1', '.', '1'] =
        .out [⟨.number 3, ⟨0, 5⟩⟩] [.unexpectedNumber '.' ⟨3, 4⟩] := by decide

/-- C5: the claim states that octal scanning accepts every digit 0 through
7 — including 7 — with no diagnostic, e.g. `0o7` yields value 7.  The code
tests the half-open Rust range `('0'..'7')`, so `7` is rejected with an
`InvalidOrUnexpectedToken` diagnostic: `0o17` yields value 1 (not 15) plus
a diagnostic for the `7`, and `0o7` panics parsing the empty digit string
(modelled as `.abort`). -/
theorem C5_octal_digit_seven_rejected :
    lex ['0', 'o', '1', '7'] =
      .out [⟨.number 1, ⟨0, 4⟩⟩] [.invalidOrUnexpectedToken '7' ⟨3, 4⟩]
    ∧ lex ['0', 'o', '7'] = .abort := by decide

/-- C6: the string-literal round trip.  For the escaped input
`'say \'Hello\''` the lexer produces a single String token over [0,15)
whose decoded value reads `say 'Hello'` and whose raw form is the exact
source text; and each recognized two-character escape decodes to the
corresponding control/literal character in the value while the raw form
keeps the backslash and the escaped character. -/
theorem C6_string_roundtrip :
    lex ['\'', 's', 'a', 'y', ' ', '\\', '\'', 'H', 'e', 'l', 'l', 'o',
        '\\', '\'', '\''] =
      .out [⟨.string
        ['s', 'a', 'y', ' ', '\'', 'H', 'e', 'l', 'l', 'o', '\'']
        ['\'', 's', 'a', 'y', ' ', '\\', '\'', 'H', 'e', 'l', 'l', 'o',
          '\\', '\'', '\''], ⟨0, 15⟩⟩] []
    ∧ lex ['\'', '\\', 'n', '\''] =
        .out [⟨.string ['\n'] ['\'', '\\', 'n', '\''], ⟨0, 4⟩⟩] []
    ∧ lex ['\'', '\\', 'r', '\''] =
        .out [⟨.string ['\r'] ['\'', '\\', 'r', '\''], ⟨0, 4⟩⟩] []
    ∧ lex ['\'', '\\', 't', '\''] =
        .out [⟨.string ['\t'] ['\'', '\\', 't', '\''], ⟨0, 4⟩⟩] []
    ∧ lex ['\'', '\\', '\\', '\''] =
        .out [⟨.string ['\\'] ['\'', '\\', '\\', '\''], ⟨0, 4⟩⟩] []
    ∧ lex ['\'', '\\', '\'', '\''] =
        .out [⟨.string ['\''] ['\'', '\\', '\'', '\''], ⟨0, 4⟩⟩] []
    ∧ lex ['"', '\\', '"', '"'] =
        .out [⟨.string ['"'] ['"', '\\', '"', '"'], ⟨0, 4⟩⟩] [] := by decide

/-- C7: an input whose lead character is outside every known class — not
whitespace, not a digit, not an identifier start, not a known punctuator or
quote, such as `@` — reaches the `panic!` arm of `read_next_kind`: the scan
aborts the process instead of recording a diagnostic and returning the
accumulated tokens and errors.  In the embedding the abort is the `.abort`
outcome. -/
theorem C7_unknown_lead_char_aborts : lex ['@'] = .abort := by decide

/-- C8: the scan loop terminates on every finite input, in a number of
iterations bounded by the input length: every successful `read_next_token`
step either yields the `Eof` sentinel (ending the loop) or strictly
consumes input, the fuelled loop run with fuel `length + 1` never exhausts
its fuel, and a returning scan emits at most one token per input
character. -/
theorem C8_scan_terminates :
    (∀ (srcLen : Nat) (rest : List Char) (lp : Nat) (errs : List Diag),
      match read_next_token srcLen rest lp errs with
      | none => True
      | some (t, rest', _, _) => t.kind = .eof ∨ rest'.length < rest.length)
    ∧ (∀ source : List Char,
        match lex source with
        | .fuelOut => False
        | _ => True)
    ∧ (∀ source : List Char,
        match lex source with
        | .out tokens _ => tokens.length ≤ source.length
        | _ => True) := by
  refine ⟨?_, ?_, ?_⟩
  · intro srcLen rest lp errs
    rcases hrt : read_next_token srcLen rest lp errs with
      _ | ⟨t, rest', lp', errs'⟩
    · trivial
    · exact (read_next_token_spec hrt).1
  · intro source
    have hnf := lex_loop_no_fuel_exhaustion source.length (source.length + 1)
      source 0 [] (by omega)
    unfold lex
    rcases hl : lex_loop source.length (source.length + 1) source 0 [] with
      ⟨ts, es⟩ | _ | _
    · trivial
    · trivial
    · exact absurd hl hnf
  · intro source
    unfold lex
    rcases hl : lex_loop source.length (source.length + 1) source 0 [] with
      ⟨ts, es⟩ | _ | _
    · exact (lex_loop_out_facts source.length (source.length + 1)
        source 0 [] ts es hl).1
    · trivial
    · trivial

/-- C9: lexing the single character `0` returns a Number token of value 0
over [0,1) and ALSO records an `InvalidOrUnexpectedToken` diagnostic for
the `0` (the `match self.cur()` of the zero branch falls through to the
error arm at end of input), so the error sequence of this valid source is
non-empty. -/
theorem C9_lone_zero_records_diagnostic :
    lex ['0'] = .out [⟨.number 0, ⟨0, 1⟩⟩]
      [.invalidOrUnexpectedToken '0' ⟨0, 1⟩] := by decide

/-- C10: no input ever yields an `AssignOp LeftShiftAssign` token — the `<`
dispatch only checks for `<=` and `<<` — and lexing `<<=` yields two
tokens, `Lt`[0,1) and `Le`[1,3), rather than a single left-shift-assignment
token. -/
theorem C10_left_shift_assign_unreachable :
    (∀ source : List Char,
      (match lex source with
       | .out tokens _ => tokens
       | _ => []).all
        (fun t => !decide (t.kind = TokenKind.assignOp AssignOp.leftShiftAssign)) = true)
    ∧ lex ['<', '<', '='] =
        .out [⟨.binaryOp .lt, ⟨0, 1⟩⟩, ⟨.binaryOp .le, ⟨1, 3⟩⟩] [] := by
  constructor
  · intro source
    unfold lex
    rcases hl : lex_loop source.length (source.length + 1) source 0 [] with
      ⟨ts, es⟩ | _ | _
    · have hfacts := (lex_loop_out_facts source.length (source.length + 1)
        source 0 [] ts es hl).2
      simp only [List.all_eq_true, Bool.not_eq_true', decide_eq_false_iff_not]
      exact fun t ht => hfacts t ht
    · simp
    · simp
  · decide

end Rtsc
